import Mathlib

/-!
Verification of the intent-resolution engine of `chatbot-ui`
(`src/services/chatbotService.js`).

The JavaScript source is shallowly embedded: JS strings become `List Char`,
JS numbers become `ℚ`, dynamically-typed JS values become the inductive
`JSVal`, and every method of `ChatbotService` that the claims mention is
translated into an executable Lean function of the same name (without the
leading underscore, which the source uses for private helpers).
-/

set_option linter.unusedVariables false

namespace ChatbotUI

/-- A JavaScript runtime value, as far as the chatbot service observes it:
`null`, `undefined`, booleans, numbers (modelled as rationals), strings,
arrays and plain objects (association lists of string keys). -/
inductive JSVal where
  | null
  | undefined
  | bool (b : Bool)
  | num (q : ℚ)
  | str (s : String)
  | arr (elems : List JSVal)
  | obj (fields : List (String × JSVal))

/-- JS truthiness (`!v` is `!truthy v`).  `null`, `undefined`, `false`,
`0` and `""` are falsy; every array and object is truthy. -/
def JSVal.truthy : JSVal → Bool
  | .null => false
  | .undefined => false
  | .bool b => b
  | .num q => decide (q ≠ 0)
  | .str s => decide (s ≠ "")
  | .arr _ => true
  | .obj _ => true

/-- Whether `v` is `null` or `undefined` (property access on it throws in JS). -/
def JSVal.isNullish : JSVal → Bool
  | .null => true
  | .undefined => true
  | _ => false

/-- Property access `v.k` for values on which it does not throw:
a missing key, or any non-object receiver, yields `undefined`.
(The embedding only applies this to non-nullish receivers; the code paths
that could reach a nullish receiver test `isNullish` first and model the
thrown `TypeError` explicitly.) -/
def JSVal.getF : JSVal → String → JSVal
  | .obj fields, k =>
    match fields.find? (fun p => p.1 == k) with
    | some p => p.2
    | none => .undefined
  | _, _ => .undefined

/-- The `Array.isArray` test. -/
def JSVal.isArr : JSVal → Bool
  | .arr _ => true
  | _ => false

/-! ### String primitives (JS strings as `List Char`) -/

/-- JS `String.prototype.toLowerCase`, restricted to the per-character lowering
Lean provides. -/
def lowerList (l : List Char) : List Char := l.map Char.toLower

/-- JS `String.prototype.trim`: drop leading and trailing whitespace. -/
def jsTrim (l : List Char) : List Char :=
  ((l.dropWhile Char.isWhitespace).reverse.dropWhile Char.isWhitespace).reverse

/-- JS `String.prototype.split(' ')`: split on every single space character;
adjacent separators produce empty segments, exactly as in JS. -/
def splitOnSpace : List Char → List (List Char)
  | [] => [[]]
  | c :: cs =>
    match splitOnSpace cs with
    | [] => [[c]]
    | w :: ws => if c = ' ' then [] :: w :: ws else (c :: w) :: ws

/-- The combination `s.split(' ').filter(word => word.length > 0)`. -/
def wordsOf (l : List Char) : List (List Char) :=
  (splitOnSpace l).filter (fun w => decide (0 < w.length))

/-- Whether `k` is a leading segment of `s`. -/
def leadsWith : List Char → List Char → Bool
  | _, [] => true
  | [], _ :: _ => false
  | c :: cs, k :: ks => c == k && leadsWith cs ks

/-- JS `String.prototype.includes`: `k` occurs contiguously inside `s`. -/
def jsIncludes : List Char → List Char → Bool
  | s, k =>
    match s with
    | [] => leadsWith [] k
    | c :: cs => leadsWith (c :: cs) k || jsIncludes cs k

/-! ### `_calculateLevenshteinDistance` (source lines 102–125)

The source fills the usual dynamic-programming table whose cell
`matrix[j][i]` is the distance between the length-`i` prefix of `str1` and
the length-`j` prefix of `str2`; each cell is the minimum of the deletion,
insertion and substitution branches.  The embedding gives the recurrence
that the table tabulates, with the three branches in the source's order. -/

def levList : List Char → List Char → ℕ
  | [], ys => ys.length
  | xs, [] => xs.length
  | x :: xs, y :: ys =>
    min (min (levList xs (y :: ys) + 1) (levList (x :: xs) ys + 1))
      (levList xs ys + if x = y then 0 else 1)
termination_by xs ys => xs.length + ys.length

/-- The method `_calculateLevenshteinDistance(str1, str2)` on JS strings. -/
def calculateLevenshteinDistance (s1 s2 : String) : ℕ :=
  levList s1.data s2.data

theorem levList_nil_left (ys : List Char) : levList [] ys = ys.length := by
  cases ys <;> simp [levList]

theorem levList_nil_right (xs : List Char) : levList xs [] = xs.length := by
  cases xs <;> simp [levList]

theorem levList_cons_cons (x y : Char) (xs ys : List Char) :
    levList (x :: xs) (y :: ys) =
      min (min (levList xs (y :: ys) + 1) (levList (x :: xs) ys + 1))
        (levList xs ys + if x = y then 0 else 1) := by
  simp [levList]

/-- The distance between equal strings is zero. -/
theorem levList_self (l : List Char) : levList l l = 0 := by
  induction l with
  | nil => simp [levList_nil_left]
  | cons x xs ih =>
    rw [levList_cons_cons]
    simp [ih]

/-- The distance never exceeds the longer string's length. -/
theorem levList_le_max (xs ys : List Char) :
    levList xs ys ≤ max xs.length ys.length := by
  induction xs generalizing ys with
  | nil => simp [levList_nil_left]
  | cons x xs ihx =>
    induction ys with
    | nil => simp [levList_nil_right]
    | cons y ys ihy =>
      rw [levList_cons_cons]
      have h1 := ihx ys
      simp only [List.length_cons] at ihy ⊢
      by_cases hxy : x = y
      · rw [if_pos hxy]; omega
      · rw [if_neg hxy]; omega

/-! ### Edit scripts

`EditSeq a b n`: string `a` can be transformed into string `b` using `n`
single-character operations (insert, delete, substitute), where characters
that are kept unchanged cost nothing. -/

inductive EditSeq : List Char → List Char → ℕ → Prop where
  | nil : EditSeq [] [] 0
  | keep (c : Char) {xs ys : List Char} {n : ℕ} :
      EditSeq xs ys n → EditSeq (c :: xs) (c :: ys) n
  | subst (c d : Char) {xs ys : List Char} {n : ℕ} :
      EditSeq xs ys n → EditSeq (c :: xs) (d :: ys) (n + 1)
  | ins (d : Char) {xs ys : List Char} {n : ℕ} :
      EditSeq xs ys n → EditSeq xs (d :: ys) (n + 1)
  | del (c : Char) {xs ys : List Char} {n : ℕ} :
      EditSeq xs ys n → EditSeq (c :: xs) ys (n + 1)

theorem editSeq_nil_left (ys : List Char) : EditSeq [] ys ys.length := by
  induction ys with
  | nil => exact .nil
  | cons y ys ih => exact .ins y ih

theorem editSeq_nil_right (xs : List Char) : EditSeq xs [] xs.length := by
  induction xs with
  | nil => exact .nil
  | cons x xs ih => exact .del x ih

/-- The DP value is realised by some edit script. -/
theorem editSeq_levList (xs ys : List Char) : EditSeq xs ys (levList xs ys) := by
  induction xs generalizing ys with
  | nil => rw [levList_nil_left]; exact editSeq_nil_left ys
  | cons x xs ihx =>
    induction ys with
    | nil => rw [levList_nil_right]; exact editSeq_nil_right (x :: xs)
    | cons y ys ihy =>
      rw [levList_cons_cons]
      rcases Nat.le_total (min (levList xs (y :: ys) + 1) (levList (x :: xs) ys + 1))
          (levList xs ys + if x = y then 0 else 1) with hmin | hmin
      · rw [Nat.min_eq_left hmin]
        rcases Nat.le_total (levList xs (y :: ys) + 1) (levList (x :: xs) ys + 1)
            with h | h
        · rw [Nat.min_eq_left h]
          exact .del x (ihx (y :: ys))
        · rw [Nat.min_eq_right h]
          exact .ins y ihy
      · rw [Nat.min_eq_right hmin]
        by_cases hxy : x = y
        · subst hxy
          simpa using EditSeq.keep x (ihx ys)
        · simp only [hxy, if_false]
          exact .subst x y (ihx ys)

/-- The DP value is a lower bound on the cost of every edit script. -/
theorem levList_le_of_editSeq {xs ys : List Char} {n : ℕ}
    (h : EditSeq xs ys n) : levList xs ys ≤ n := by
  induction h with
  | nil => simp [levList_nil_left]
  | keep c h ih =>
    rw [levList_cons_cons]
    refine le_trans (Nat.min_le_right _ _) ?_
    rw [if_pos rfl]
    omega
  | subst c d h ih =>
    rw [levList_cons_cons]
    refine le_trans (Nat.min_le_right _ _) ?_
    split <;> omega
  | ins d h ih =>
    rename_i xs' ys' n'
    cases xs' with
    | nil =>
      rw [levList_nil_left] at ih ⊢
      simpa using Nat.add_le_add_right ih 1
    | cons a as =>
      rw [levList_cons_cons]
      refine le_trans (le_trans (Nat.min_le_left _ _) (Nat.min_le_right _ _)) ?_
      exact Nat.add_le_add_right ih 1
  | del c h ih =>
    rename_i xs' ys' n'
    cases ys' with
    | nil =>
      rw [levList_nil_right] at ih ⊢
      simpa using Nat.add_le_add_right ih 1
    | cons b bs =>
      rw [levList_cons_cons]
      refine le_trans (le_trans (Nat.min_le_left _ _) (Nat.min_le_left _ _)) ?_
      exact Nat.add_le_add_right ih 1

/-- Edit scripts reverse: swapping insertions and deletions. -/
theorem editSeq_symm {xs ys : List Char} {n : ℕ}
    (h : EditSeq xs ys n) : EditSeq ys xs n := by
  induction h with
  | nil => exact .nil
  | keep c _ ih => exact .keep c ih
  | subst c d _ ih => exact .subst d c ih
  | ins d _ ih => exact .del d ih
  | del c _ ih => exact .ins c ih

/-- The DP distance is symmetric. -/
theorem levList_comm (xs ys : List Char) : levList xs ys = levList ys xs :=
  le_antisymm
    (levList_le_of_editSeq (editSeq_symm (editSeq_levList ys xs)))
    (levList_le_of_editSeq (editSeq_symm (editSeq_levList xs ys)))

/-! ### `_calculateStringSimilarity` (source lines 134–140)

```js
if (!str1 || !str2) return 0;
const maxLength = Math.max(str1.length, str2.length);
if (maxLength === 0) return 1;
return 1 - (distance / maxLength);
```
The first guard uses JS truthiness, so an empty string on either side
(including both sides) yields `0`; the `maxLength === 0` branch is
unreachable. -/
def calculateStringSimilarity (s1 s2 : List Char) : ℚ :=
  if s1.length = 0 ∨ s2.length = 0 then 0
  else if ((max s1.length s2.length : ℕ) : ℚ) = 0 then 1
  else 1 - (levList s1 s2 : ℚ) / ((max s1.length s2.length : ℕ) : ℚ)

theorem calculateStringSimilarity_empty_left (s : List Char) :
    calculateStringSimilarity [] s = 0 := by
  simp [calculateStringSimilarity]

theorem calculateStringSimilarity_empty_right (s : List Char) :
    calculateStringSimilarity s [] = 0 := by
  simp [calculateStringSimilarity]

theorem calculateStringSimilarity_comm (s1 s2 : List Char) :
    calculateStringSimilarity s1 s2 = calculateStringSimilarity s2 s1 := by
  unfold calculateStringSimilarity
  rw [levList_comm, Nat.max_comm]
  by_cases h1 : s1.length = 0 <;> by_cases h2 : s2.length = 0 <;> simp [h1, h2]

theorem calculateStringSimilarity_self {s : List Char} (h : s ≠ []) :
    calculateStringSimilarity s s = 1 := by
  have hlen : s.length ≠ 0 := by simpa using h
  rw [calculateStringSimilarity, if_neg (by simp [hlen]), levList_self]
  simp

theorem calculateStringSimilarity_nonneg (s1 s2 : List Char) :
    0 ≤ calculateStringSimilarity s1 s2 := by
  unfold calculateStringSimilarity
  split
  · norm_num
  · split
    · norm_num
    · rename_i hne _
      push_neg at hne
      have hpos : (0 : ℚ) < (max s1.length s2.length : ℕ) := by
        have := Nat.pos_of_ne_zero hne.1
        have : 0 < max s1.length s2.length := by omega
        exact_mod_cast this
      have hle : (levList s1 s2 : ℚ) ≤ (max s1.length s2.length : ℕ) := by
        exact_mod_cast levList_le_max s1 s2
      have := div_le_one_of_le₀ hle (le_of_lt hpos)
      linarith

theorem calculateStringSimilarity_le_one (s1 s2 : List Char) :
    calculateStringSimilarity s1 s2 ≤ 1 := by
  unfold calculateStringSimilarity
  split
  · norm_num
  · split
    · norm_num
    · rename_i hne _
      push_neg at hne
      have hpos : (0 : ℚ) < (max s1.length s2.length : ℕ) := by
        have : 0 < max s1.length s2.length := by
          have := Nat.pos_of_ne_zero hne.1
          omega
        exact_mod_cast this
      have hd : (0 : ℚ) ≤ (levList s1 s2 : ℚ) := by positivity
      have := div_nonneg hd (le_of_lt hpos)
      linarith

/-! ### `_calculateWordOrderSimilarity` (source lines 149–193) -/

/-- The fixed clinical-keyword vocabulary of the source. -/
def medicalKeywords : List String :=
  ["cuts", "fever", "headache", "pain", "treatment", "cure"]

/-- The inner loop of `_calculateWordOrderSimilarity`: scan the pattern
words with index `j`, tracking the best similarity score and the index at
which it was found (ties keep the earlier index; the initial index is
`-1`). -/
def bestMatchIn (qw : List Char) : List (List Char) → ℤ → ℚ × ℤ → ℚ × ℤ
  | [], _, best => best
  | pw :: rest, j, best =>
    let s := calculateStringSimilarity qw pw
    bestMatchIn qw rest (j + 1) (if s > best.1 then (s, j) else best)

/-- The outer loop of `_calculateWordOrderSimilarity`: for each query word
(index `i`) with best pattern-word similarity above `0.6`, bump the match
count, accumulate `1 - |i - j| / max(queryLen, patternLen)`, and bump the
keyword count when the query word or the matched pattern word contains a
clinical keyword. Returns `(matchCount, orderScore, keywordMatches)`. -/
def orderAccum (pws : List (List Char)) (qLen pLen : ℕ) :
    List (List Char) → ℤ → ℕ × ℚ × ℕ → ℕ × ℚ × ℕ
  | [], _, acc => acc
  | qw :: rest, i, (mc, os, km) =>
    let b := bestMatchIn qw pws 0 (0, -1)
    if b.1 > 0.6 then
      let posDiff : ℚ := |(i : ℚ) - (b.2 : ℚ)|
      let os' := os + (1 - posDiff / ((max qLen pLen : ℕ) : ℚ))
      let matchedPw := pws.getD b.2.toNat []
      let km' := if medicalKeywords.any (fun k =>
          jsIncludes (lowerList qw) k.data || jsIncludes (lowerList matchedPw) k.data)
        then km + 1 else km
      orderAccum pws qLen pLen rest (i + 1) (mc + 1, os', km')
    else
      orderAccum pws qLen pLen rest (i + 1) (mc, os, km)

/-- The method `_calculateWordOrderSimilarity(queryWords, patternWords)`. -/
def calculateWordOrderSimilarity (qws pws : List (List Char)) : ℚ :=
  if qws.length = 0 ∨ pws.length = 0 then 0
  else
    let acc := orderAccum pws qws.length pws.length qws 0 (0, 0, 0)
    let base := if acc.1 > 0 then acc.2.1 / (acc.1 : ℚ) else 0
    min 1 (base + (acc.2.2 : ℚ) * 0.2)

/-! ### The per-pattern scorer inside `findMatchingIntent`
(source lines 239–270) -/

/-- Best similarity of one query word against any pattern word
(`bestWordScore` in the source, initial value `0`). -/
def bestWordScore (qw : List Char) (pws : List (List Char)) : ℚ :=
  pws.foldl (fun b pw => max b (calculateStringSimilarity qw pw)) 0

/-- The word-similarity loop: returns the running sum of best word scores
and the count of query words whose best score exceeds `0.6`
(`wordSimilarityScore` before averaging, and `matchedWords`). -/
def wordSimAndMatched (qws pws : List (List Char)) : ℚ × ℕ :=
  qws.foldl (fun acc qw =>
    let b := bestWordScore qw pws
    (acc.1 + b, if b > 0.6 then acc.2 + 1 else acc.2)) (0, 0)

/-- The score of one pattern against the normalized query `nq` (already
lower-cased and trimmed) with word list `qws`.  In source order: the
pattern is lower-cased into `normalizedPattern` and split into
`patternWords`; `exactMatchScore` is the verbatim-equality indicator;
`wordSimilarityScore` is the summed best word score divided by the query
word count; the final score is the source's weighted sum
`(exact·1.0 + wordSim·0.7 + order·0.6 + coverage·0.9) / 3.2`. -/
def patternScore (qws : List (List Char)) (nq : List Char) (pat : List Char) : ℚ :=
  ((if nq = lowerList pat then (1:ℚ) else 0) * 1.0 +
    (wordSimAndMatched qws (wordsOf (lowerList pat))).1 / (qws.length : ℚ) * 0.7 +
    calculateWordOrderSimilarity qws (wordsOf (lowerList pat)) * 0.6 +
    ((wordSimAndMatched qws (wordsOf (lowerList pat))).2 : ℚ) /
      ((max qws.length (wordsOf (lowerList pat)).length : ℕ) : ℚ) * 0.9) / 3.2

/-- The per-intent pattern loop: fold the maximum pattern score over the
intent's `patterns` array, skipping (with a console warning) every element
that is not a string. `intentScore` starts at `0`. -/
def intentScore (qws : List (List Char)) (nq : List Char) : List JSVal → ℚ → ℚ
  | [], sc => sc
  | p :: rest, sc =>
    match p with
    | .str s => intentScore qws nq rest (max sc (patternScore qws nq s.data))
    | _ => intentScore qws nq rest sc

/-! ### `findMatchingIntent` (source lines 200–303)

Errors thrown by the method are all `IntentMatchError`s (a thrown
`TypeError` from property access on a nullish entry is caught at the end
of the method and re-wrapped into an `IntentMatchError`), so the
embedding returns `Except String` carrying the error message. -/

/-- The intent loop of `findMatchingIntent`: entries whose `patterns`
property is falsy or not an array are skipped with a console warning;
otherwise the intent's score is computed and the running best match
`(intent, score)` is replaced when the new score is strictly greater.
A nullish entry would make the JS property access throw, which the
method's `catch` re-wraps into an `IntentMatchError`. -/
def resolverLoop (qws : List (List Char)) (nq : List Char) :
    List JSVal → Option JSVal × ℚ → Except String (Option JSVal × ℚ)
  | [], best => .ok best
  | intent :: rest, best =>
    if intent.isNullish then
      .error "Failed to match intent: TypeError"
    else
      match intent.getF "patterns" with
      | .arr pats =>
        let sc := intentScore qws nq pats 0
        resolverLoop qws nq rest (if sc > best.2 then (some intent, sc) else best)
      | _ => resolverLoop qws nq rest best

/-- The method `findMatchingIntent(query)` with the service's `this.intents` passed
explicitly.  Returns `.ok none` for "no match", `.ok (some intent)` for a
match, and `.error msg` for a thrown `IntentMatchError`. -/
def findMatchingIntent (query : JSVal) (intents : JSVal) :
    Except String (Option JSVal) :=
  if ¬ query.truthy then .ok none
  else
    match query with
    | .str q =>
      (match intents with
       | .arr l =>
         if l.length = 0 then .error "No intents available for matching"
         else
           let nq := jsTrim (lowerList q.data)
           if nq.length = 0 then .ok none
           else
             let qws := wordsOf nq
             match resolverLoop qws nq l (none, 0) with
             | .error e => .error e
             | .ok best => .ok (if best.2 ≥ 0.25 then best.1 else none)
       | _ => .error "No intents available for matching")
    | _ => .error "Query must be a string"

/-! ### `loadIntents` (source lines 57–93) -/

/-- The service's mutable state: the `this.intents` backing store. -/
structure ServiceState where
  intents : JSVal

/-- The per-entry validation loop of `loadIntents`.  A nullish entry makes
the JS property access throw a `TypeError`, which the surrounding `catch`
wraps into `IntentLoadError("Failed to load intent data: ...")`; the
embedding models that wrapped message as a fixed string. -/
def validateEntries : List JSVal → Option String
  | [] => none
  | e :: rest =>
    if e.isNullish then some "Failed to load intent data: TypeError"
    else if ¬ (e.getF "tag").truthy ∨ ¬ (e.getF "patterns").truthy ∨
        ¬ (e.getF "responses").truthy then
      some "Invalid intent structure: missing required properties"
    else if ¬ (e.getF "patterns").isArr ∨ ¬ (e.getF "responses").isArr then
      some "Invalid intent structure: patterns and responses must be arrays"
    else validateEntries rest

/-- The method `loadIntents(intentsData)`: validation checks in source order; only
after every check passes is `this.intents` assigned.  The result is the
new service state together with the thrown `IntentLoadError` message, if
any. -/
def loadIntents (st : ServiceState) (intentsData : JSVal) :
    ServiceState × Option String :=
  if ¬ intentsData.truthy then (st, some "Intent data is missing")
  else if ¬ (intentsData.getF "intents").truthy then
    (st, some "Invalid intent data structure: missing intents property")
  else
    match intentsData.getF "intents" with
    | .arr l =>
      if l.length = 0 then (st, some "Intent data is empty")
      else
        match validateEntries l with
        | some e => (st, some e)
        | none => ({ intents := .arr l }, none)
    | _ => (st, some "Invalid intent data structure: intents must be an array")

/-! ### `generateResponse` (source lines 310–393) -/

/-- The three-field result object `{ answer, intent, error }` returned by
`generateResponse`.  `answer` is always a string in the source (each
assignment is either a literal or a value that passed the
`typeof response === 'string'` check); `intent` is either `null` or the
matched intent's `tag` property, a raw JS value. -/
structure GenResult where
  answer : String
  intent : JSVal
  error : Option String

def emptyQueryAnswer : String :=
  "I'm sorry, I don't understand empty queries. Please ask a medical question."

def noMatchAnswer : String :=
  "I'm sorry, I don't understand that medical query. Could you please rephrase it or ask about a specific medical condition?"

def matchErrorAnswer : String :=
  "Sorry, there was an error matching your query. Please try rephrasing your question."

def internalErrorAnswer : String :=
  "Sorry, I encountered an error processing your query. Please try again."

/-- The method `generateResponse(query)` with the service's `this.intents` and the
`Math.random()` draw passed explicitly.  Every internal failure is caught
and mapped to a result value: `IntentMatchError`s from the resolver give
`INTENT_MATCH_ERROR`, everything else (including the
`ResponseGenerationError`s thrown for a non-string query, missing or
empty `responses`, and an invalid selected response) gives
`INTERNAL_ERROR`. -/
def generateResponse (intents : JSVal) (rand : ℚ) (query : JSVal) : GenResult :=
  if ¬ query.truthy then
    ⟨emptyQueryAnswer, .null, some "EMPTY_QUERY"⟩
  else
    match query with
    | .str _ =>
      (match findMatchingIntent query intents with
       | .error _ => ⟨matchErrorAnswer, .null, some "INTENT_MATCH_ERROR"⟩
       | .ok none => ⟨noMatchAnswer, .null, some "NO_MATCH"⟩
       | .ok (some m) =>
         match m.getF "responses" with
         | .arr rs =>
           if rs.length = 0 then ⟨internalErrorAnswer, .null, some "INTERNAL_ERROR"⟩
           else
             let randomIndex := (Int.floor (rand * (rs.length : ℚ))).toNat
             match rs.getD randomIndex JSVal.undefined with
             | .str resp =>
               if (jsTrim resp.data).length = 0 then
                 ⟨internalErrorAnswer, .null, some "INTERNAL_ERROR"⟩
               else ⟨resp, m.getF "tag", none⟩
             | _ => ⟨internalErrorAnswer, .null, some "INTERNAL_ERROR"⟩
         | _ => ⟨internalErrorAnswer, .null, some "INTERNAL_ERROR"⟩)
    | _ => ⟨internalErrorAnswer, .null, some "INTERNAL_ERROR"⟩

/-! ### Bounds on the scoring pipeline -/

theorem foldl_max_sim_le (qw : List Char) :
    ∀ (pws : List (List Char)) (b : ℚ), b ≤ 1 →
      (pws.foldl (fun b pw => max b (calculateStringSimilarity qw pw)) b) ≤ 1 := by
  intro pws
  induction pws with
  | nil => intro b hb; simpa using hb
  | cons pw rest ih =>
    intro b hb
    simp only [List.foldl_cons]
    exact ih _ (max_le hb (calculateStringSimilarity_le_one qw pw))

theorem foldl_max_sim_ge (qw : List Char) :
    ∀ (pws : List (List Char)) (b : ℚ),
      b ≤ (pws.foldl (fun b pw => max b (calculateStringSimilarity qw pw)) b) := by
  intro pws
  induction pws with
  | nil => intro b; simp
  | cons pw rest ih =>
    intro b
    simp only [List.foldl_cons]
    exact le_trans (le_max_left _ _) (ih _)

theorem bestWordScore_nonneg (qw : List Char) (pws : List (List Char)) :
    0 ≤ bestWordScore qw pws :=
  foldl_max_sim_ge qw pws 0

theorem bestWordScore_le_one (qw : List Char) (pws : List (List Char)) :
    bestWordScore qw pws ≤ 1 :=
  foldl_max_sim_le qw pws 0 (by norm_num)

theorem wordSimAndMatched_aux (pws : List (List Char)) :
    ∀ (qws : List (List Char)) (a : ℚ × ℕ),
      a.1 ≤ (qws.foldl (fun acc qw =>
          let b := bestWordScore qw pws
          (acc.1 + b, if b > 0.6 then acc.2 + 1 else acc.2)) a).1 ∧
      (qws.foldl (fun acc qw =>
          let b := bestWordScore qw pws
          (acc.1 + b, if b > 0.6 then acc.2 + 1 else acc.2)) a).1 ≤
        a.1 + qws.length ∧
      (qws.foldl (fun acc qw =>
          let b := bestWordScore qw pws
          (acc.1 + b, if b > 0.6 then acc.2 + 1 else acc.2)) a).2 ≤
        a.2 + qws.length := by
  intro qws
  induction qws with
  | nil => intro a; simp
  | cons qw rest ih =>
    intro a
    simp only [List.foldl_cons, List.length_cons]
    have hb0 : 0 ≤ bestWordScore qw pws := bestWordScore_nonneg qw pws
    have hb1 : bestWordScore qw pws ≤ 1 := bestWordScore_le_one qw pws
    obtain ⟨ih1, ih2, ih3⟩ := ih (a.1 + bestWordScore qw pws,
      if bestWordScore qw pws > 0.6 then a.2 + 1 else a.2)
    refine ⟨le_trans (by linarith) ih1, le_trans ih2 ?_, le_trans ih3 ?_⟩
    · push_cast
      linarith
    · split <;> omega

theorem wordSimAndMatched_sum_nonneg (qws pws : List (List Char)) :
    0 ≤ (wordSimAndMatched qws pws).1 := by
  have := (wordSimAndMatched_aux pws qws (0, 0)).1
  simpa [wordSimAndMatched] using this

theorem wordSimAndMatched_sum_le (qws pws : List (List Char)) :
    (wordSimAndMatched qws pws).1 ≤ (qws.length : ℚ) := by
  have := (wordSimAndMatched_aux pws qws (0, 0)).2.1
  simpa [wordSimAndMatched] using this

theorem wordSimAndMatched_count_le (qws pws : List (List Char)) :
    (wordSimAndMatched qws pws).2 ≤ qws.length := by
  have := (wordSimAndMatched_aux pws qws (0, 0)).2.2
  simpa [wordSimAndMatched] using this

theorem bestMatchIn_pos_idx (qw : List Char) :
    ∀ (l : List (List Char)) (j : ℤ) (best : ℚ × ℤ), 0 ≤ j →
      (0 < best.1 → 0 ≤ best.2 ∧ best.2 < j) →
      0 < (bestMatchIn qw l j best).1 →
      0 ≤ (bestMatchIn qw l j best).2 ∧
        (bestMatchIn qw l j best).2 < j + l.length := by
  intro l
  induction l with
  | nil =>
    intro j best hj hinv hpos
    simp only [bestMatchIn] at hpos ⊢
    have := hinv hpos
    omega
  | cons pw rest ih =>
    intro j best hj hinv hpos
    simp only [bestMatchIn] at hpos ⊢
    have hnext : 0 < (if calculateStringSimilarity qw pw > best.1
          then (calculateStringSimilarity qw pw, j) else best).1 →
        0 ≤ (if calculateStringSimilarity qw pw > best.1
          then (calculateStringSimilarity qw pw, j) else best).2 ∧
        (if calculateStringSimilarity qw pw > best.1
          then (calculateStringSimilarity qw pw, j) else best).2 < j + 1 := by
      split
      · intro _
        refine ⟨hj, ?_⟩
        show j < j + 1
        omega
      · intro hp
        have := hinv hp
        omega
    have := ih (j + 1) _ (by omega) hnext hpos
    simp only [List.length_cons]
    omega

theorem orderAccum_os_nonneg (pws : List (List Char)) (qLen pLen : ℕ)
    (hp : pws.length = pLen) (hq : 0 < qLen) (_hpl : 0 < pLen) :
    ∀ (l : List (List Char)) (i : ℤ) (mc : ℕ) (os : ℚ) (km : ℕ),
      0 ≤ i → i + l.length ≤ (qLen : ℤ) → 0 ≤ os →
      0 ≤ (orderAccum pws qLen pLen l i (mc, os, km)).2.1 := by
  intro l
  induction l with
  | nil =>
    intro i mc os km _ _ hos
    simpa [orderAccum] using hos
  | cons qw rest ih =>
    intro i mc os km hi0 hil hos
    simp only [List.length_cons] at hil
    rw [orderAccum]
    set b := bestMatchIn qw pws 0 (0, -1) with hb
    by_cases hmatch : b.1 > 0.6
    · rw [if_pos hmatch]
      have hidx : 0 ≤ b.2 ∧ b.2 < 0 + pws.length := by
        refine bestMatchIn_pos_idx qw pws 0 (0, -1) le_rfl ?_ (by rw [← hb]; linarith)
        intro h0
        exact absurd h0 (lt_irrefl 0)
      have hterm : 0 ≤ 1 - |(i : ℚ) - (b.2 : ℚ)| / ((max qLen pLen : ℕ) : ℚ) := by
        have habs : |i - b.2| ≤ (max qLen pLen : ℕ) := by
          rw [hp] at hidx
          have : (0 : ℤ) < (max qLen pLen : ℕ) := by
            have := Nat.le_max_left qLen pLen
            omega
          rw [abs_le]
          omega
        have habsq : |(i : ℚ) - (b.2 : ℚ)| ≤ ((max qLen pLen : ℕ) : ℚ) := by
          have : ((|i - b.2| : ℤ) : ℚ) ≤ (((max qLen pLen : ℕ) : ℤ) : ℚ) := by
            exact_mod_cast habs
          rw [Int.cast_abs] at this
          push_cast at this ⊢
          linarith
        have hmaxpos : (0 : ℚ) < ((max qLen pLen : ℕ) : ℚ) := by
          have : 0 < max qLen pLen := lt_of_lt_of_le hq (Nat.le_max_left _ _)
          exact_mod_cast this
        have := div_le_one_of_le₀ habsq (le_of_lt hmaxpos)
        linarith
      exact ih (i + 1) (mc + 1) _ _ (by omega) (by omega) (by linarith)
    · rw [if_neg hmatch]
      exact ih (i + 1) mc os km (by omega) (by omega) hos

theorem calculateWordOrderSimilarity_nonneg (qws pws : List (List Char)) :
    0 ≤ calculateWordOrderSimilarity qws pws := by
  rw [calculateWordOrderSimilarity]
  split
  · norm_num
  · rename_i hne
    push_neg at hne
    simp only []
    set A := orderAccum pws qws.length pws.length qws 0 (0, 0, 0) with hA
    have hos : 0 ≤ A.2.1 := by
      rw [hA]
      exact orderAccum_os_nonneg pws qws.length pws.length rfl
        (Nat.pos_of_ne_zero hne.1) (Nat.pos_of_ne_zero hne.2) qws 0 0 0 0
        le_rfl (by omega) le_rfl
    refine le_min (by norm_num) ?_
    have hbase : (0:ℚ) ≤ (if A.1 > 0 then A.2.1 / (A.1 : ℚ) else 0) := by
      split
      · exact div_nonneg hos (by positivity)
      · exact le_refl 0
    have hkm : (0:ℚ) ≤ (A.2.2 : ℚ) * 0.2 := by positivity
    linarith

theorem calculateWordOrderSimilarity_le_one (qws pws : List (List Char)) :
    calculateWordOrderSimilarity qws pws ≤ 1 := by
  rw [calculateWordOrderSimilarity]
  split
  · norm_num
  · exact min_le_left _ _

theorem patternScore_nonneg (qws : List (List Char)) (nq pat : List Char) :
    0 ≤ patternScore qws nq pat := by
  rw [patternScore]
  have he : (0:ℚ) ≤ if nq = lowerList pat then 1 else 0 := by split <;> norm_num
  have hws : (0:ℚ) ≤ (wordSimAndMatched qws (wordsOf (lowerList pat))).1 /
      (qws.length : ℚ) :=
    div_nonneg (wordSimAndMatched_sum_nonneg _ _) (by positivity)
  have hor : (0:ℚ) ≤ calculateWordOrderSimilarity qws (wordsOf (lowerList pat)) :=
    calculateWordOrderSimilarity_nonneg _ _
  have hcov : (0:ℚ) ≤ ((wordSimAndMatched qws (wordsOf (lowerList pat))).2 : ℚ) /
      ((max qws.length (wordsOf (lowerList pat)).length : ℕ) : ℚ) :=
    div_nonneg (by positivity) (by positivity)
  have : (0:ℚ) ≤ (if nq = lowerList pat then (1:ℚ) else 0) * 1.0 +
      (wordSimAndMatched qws (wordsOf (lowerList pat))).1 / (qws.length : ℚ) * 0.7 +
      calculateWordOrderSimilarity qws (wordsOf (lowerList pat)) * 0.6 +
      ((wordSimAndMatched qws (wordsOf (lowerList pat))).2 : ℚ) /
        ((max qws.length (wordsOf (lowerList pat)).length : ℕ) : ℚ) * 0.9 := by
    nlinarith
  exact div_nonneg this (by norm_num)

theorem patternScore_le_one (qws : List (List Char)) (nq pat : List Char) :
    patternScore qws nq pat ≤ 1 := by
  rw [patternScore]
  have he : (if nq = lowerList pat then (1:ℚ) else 0) ≤ 1 := by split <;> norm_num
  have hws : (wordSimAndMatched qws (wordsOf (lowerList pat))).1 /
      (qws.length : ℚ) ≤ 1 := by
    rcases Nat.eq_zero_or_pos qws.length with h0 | hpos
    · have := wordSimAndMatched_sum_le qws (wordsOf (lowerList pat))
      rw [h0] at this ⊢
      have h00 : (wordSimAndMatched qws (wordsOf (lowerList pat))).1 ≤ 0 := by
        exact_mod_cast this
      simp only [Nat.cast_zero, div_zero]
      norm_num
    · exact div_le_one_of_le₀ (wordSimAndMatched_sum_le _ _) (by positivity)
  have hor : calculateWordOrderSimilarity qws (wordsOf (lowerList pat)) ≤ 1 :=
    calculateWordOrderSimilarity_le_one _ _
  have hcov : ((wordSimAndMatched qws (wordsOf (lowerList pat))).2 : ℚ) /
      ((max qws.length (wordsOf (lowerList pat)).length : ℕ) : ℚ) ≤ 1 := by
    rcases Nat.eq_zero_or_pos (max qws.length (wordsOf (lowerList pat)).length)
        with h0 | hpos
    · rw [h0]
      simp only [Nat.cast_zero, div_zero]
      norm_num
    · refine div_le_one_of_le₀ ?_ (by positivity)
      have : (wordSimAndMatched qws (wordsOf (lowerList pat))).2 ≤
          max qws.length (wordsOf (lowerList pat)).length :=
        le_trans (wordSimAndMatched_count_le _ _) (Nat.le_max_left _ _)
      exact_mod_cast this
  have hws0 : (0:ℚ) ≤ (wordSimAndMatched qws (wordsOf (lowerList pat))).1 /
      (qws.length : ℚ) :=
    div_nonneg (wordSimAndMatched_sum_nonneg _ _) (by positivity)
  have hor0 : (0:ℚ) ≤ calculateWordOrderSimilarity qws (wordsOf (lowerList pat)) :=
    calculateWordOrderSimilarity_nonneg _ _
  have hcov0 : (0:ℚ) ≤ ((wordSimAndMatched qws (wordsOf (lowerList pat))).2 : ℚ) /
      ((max qws.length (wordsOf (lowerList pat)).length : ℕ) : ℚ) :=
    div_nonneg (by positivity) (by positivity)
  have he0 : (0:ℚ) ≤ if nq = lowerList pat then (1:ℚ) else 0 := by split <;> norm_num
  rw [div_le_one (by norm_num : (0:ℚ) < 3.2)]
  nlinarith

theorem intentScore_ge_init (qws : List (List Char)) (nq : List Char) :
    ∀ (ps : List JSVal) (sc : ℚ), sc ≤ intentScore qws nq ps sc := by
  intro ps
  induction ps with
  | nil => intro sc; simp [intentScore]
  | cons p rest ih =>
    intro sc
    cases p <;> simp only [intentScore]
    case str s => exact le_trans (le_max_left _ _) (ih _)
    all_goals exact ih sc

theorem intentScore_le_one (qws : List (List Char)) (nq : List Char) :
    ∀ (ps : List JSVal) (sc : ℚ), sc ≤ 1 → intentScore qws nq ps sc ≤ 1 := by
  intro ps
  induction ps with
  | nil => intro sc h; simpa [intentScore] using h
  | cons p rest ih =>
    intro sc h
    cases p <;> simp only [intentScore]
    case str s => exact ih _ (max_le h (patternScore_le_one qws nq s.data))
    all_goals exact ih sc h

theorem intentScore_nonneg (qws : List (List Char)) (nq : List Char)
    (ps : List JSVal) : 0 ≤ intentScore qws nq ps 0 :=
  intentScore_ge_init qws nq ps 0

/-- The best-match score tracked by the resolver loop stays within the
interval spanned by its seed and the per-intent scores. -/
theorem resolverLoop_score_bounds (qws : List (List Char)) (nq : List Char) :
    ∀ (l : List JSVal) (best : Option JSVal × ℚ) (r : Option JSVal × ℚ),
      0 ≤ best.2 → best.2 ≤ 1 →
      resolverLoop qws nq l best = .ok r → 0 ≤ r.2 ∧ r.2 ≤ 1 := by
  intro l
  induction l with
  | nil =>
    intro best r h0 h1 hr
    rw [resolverLoop] at hr
    cases hr
    exact ⟨h0, h1⟩
  | cons intent rest ih =>
    intro best r h0 h1 hr
    rw [resolverLoop] at hr
    by_cases hn : intent.isNullish
    · rw [if_pos hn] at hr
      cases hr
    · rw [if_neg hn] at hr
      cases hpat : intent.getF "patterns" with
      | arr pats =>
        rw [hpat] at hr
        simp only [] at hr
        by_cases hgt : intentScore qws nq pats 0 > best.2
        · rw [if_pos hgt] at hr
          exact ih _ r (intentScore_nonneg qws nq pats)
            (intentScore_le_one qws nq pats 0 (by norm_num)) hr
        · rw [if_neg hgt] at hr
          exact ih _ r h0 h1 hr
      | null => rw [hpat] at hr; exact ih _ r h0 h1 hr
      | undefined => rw [hpat] at hr; exact ih _ r h0 h1 hr
      | bool b => rw [hpat] at hr; exact ih _ r h0 h1 hr
      | num q => rw [hpat] at hr; exact ih _ r h0 h1 hr
      | str s => rw [hpat] at hr; exact ih _ r h0 h1 hr
      | obj f => rw [hpat] at hr; exact ih _ r h0 h1 hr

/-! ### Characterization of the resolver loop (for the matching claims) -/

/-- The score `findMatchingIntent` computes for one catalog entry: the
per-pattern maximum over its `patterns` array (`0` when the entry has no
usable patterns array, in which case the loop skips it). -/
def scoreOf (qws : List (List Char)) (nq : List Char) (e : JSVal) : ℚ :=
  match e.getF "patterns" with
  | .arr pats => intentScore qws nq pats 0
  | _ => 0

/-- The maximum entry score over a catalog list (`0` for the empty list;
entry scores are never negative). -/
def maxIntentScore (qws : List (List Char)) (nq : List Char)
    (l : List JSVal) : ℚ :=
  (l.map (scoreOf qws nq)).foldr max 0

theorem scoreOf_nonneg (qws : List (List Char)) (nq : List Char) (e : JSVal) :
    0 ≤ scoreOf qws nq e := by
  rw [scoreOf]
  cases e.getF "patterns"
  case arr pats => exact intentScore_nonneg qws nq pats
  all_goals norm_num

theorem le_maxIntentScore (qws : List (List Char)) (nq : List Char) :
    ∀ (l : List JSVal) (e : JSVal), e ∈ l →
      scoreOf qws nq e ≤ maxIntentScore qws nq l := by
  intro l
  induction l with
  | nil => intro e he; cases he
  | cons x rest ih =>
    intro e he
    rw [maxIntentScore, List.map_cons, List.foldr_cons]
    rcases List.mem_cons.mp he with rfl | hmem
    · exact le_max_left _ _
    · exact le_trans (ih e hmem) (le_max_right _ _)

theorem maxIntentScore_mem (qws : List (List Char)) (nq : List Char) :
    ∀ (l : List JSVal), l ≠ [] →
      ∃ e ∈ l, scoreOf qws nq e = maxIntentScore qws nq l := by
  intro l
  induction l with
  | nil => intro h; exact absurd rfl h
  | cons x rest ih =>
    intro _
    by_cases hne : rest = []
    · subst hne
      refine ⟨x, List.mem_cons_self x [], ?_⟩
      rw [maxIntentScore]
      simp only [List.map_cons, List.map_nil, List.foldr_cons, List.foldr_nil]
      exact (max_eq_left (scoreOf_nonneg qws nq x)).symm
    · obtain ⟨e, hmem, he⟩ := ih hne
      have hcons : maxIntentScore qws nq (x :: rest) =
          max (scoreOf qws nq x) (maxIntentScore qws nq rest) := by
        rw [maxIntentScore, List.map_cons, List.foldr_cons]
        rfl
      rcases le_total (maxIntentScore qws nq rest) (scoreOf qws nq x) with hle | hle
      · exact ⟨x, List.mem_cons_self x rest, by rw [hcons, max_eq_left hle]⟩
      · exact ⟨e, List.mem_cons_of_mem x hmem, by rw [hcons, max_eq_right hle, he]⟩

/-- What the resolver loop returns on a list of well-formed entries (no
nullish entries, every `patterns` property an array): if some entry beats
the seed score, the first entry attaining the list maximum together with
that maximum; otherwise the seed pair unchanged. -/
theorem resolverLoop_spec (qws : List (List Char)) (nq : List Char) :
    ∀ (l : List JSVal) (best : Option JSVal × ℚ), 0 ≤ best.2 →
      (∀ e ∈ l, e.isNullish = false ∧ ∃ ps, e.getF "patterns" = JSVal.arr ps) →
      resolverLoop qws nq l best = .ok
        (if maxIntentScore qws nq l > best.2 then
          (l.find? (fun e => decide (scoreOf qws nq e = maxIntentScore qws nq l)),
            maxIntentScore qws nq l)
         else best) := by
  intro l
  induction l with
  | nil =>
    intro best hb _
    rw [resolverLoop]
    rw [if_neg]
    simp only [maxIntentScore, List.map_nil, List.foldr_nil]
    exact not_lt.mpr hb
  | cons x rest ih =>
    intro best hb hok
    obtain ⟨hnn, ps, hps⟩ := hok x (List.mem_cons_self x rest)
    have hokr : ∀ e ∈ rest, e.isNullish = false ∧
        ∃ ps, e.getF "patterns" = JSVal.arr ps :=
      fun e he => hok e (List.mem_cons_of_mem x he)
    have hsx : scoreOf qws nq x = intentScore qws nq ps 0 := by
      rw [scoreOf, hps]
    have hmax_cons : maxIntentScore qws nq (x :: rest) =
        max (scoreOf qws nq x) (maxIntentScore qws nq rest) := by
      rw [maxIntentScore, List.map_cons, List.foldr_cons]
      rfl
    rw [resolverLoop, if_neg (by simp [hnn]), hps]
    simp only []
    by_cases hgt : intentScore qws nq ps 0 > best.2
    · rw [if_pos hgt]
      rw [ih (some x, intentScore qws nq ps 0) (le_trans (le_of_lt (lt_of_le_of_lt hb hgt)) le_rfl) hokr]
      by_cases hrest : maxIntentScore qws nq rest > intentScore qws nq ps 0
      · -- the tail holds a strictly better score
        rw [if_pos hrest]
        have hmx : maxIntentScore qws nq (x :: rest) = maxIntentScore qws nq rest := by
          rw [hmax_cons, hsx, max_eq_right (le_of_lt hrest)]
        rw [if_pos (by rw [hmx]; exact lt_trans hgt hrest)]
        rw [List.find?_cons, hmx]
        have hne : decide (scoreOf qws nq x = maxIntentScore qws nq rest) = false := by
          rw [decide_eq_false_iff_not]
          rw [hsx]
          exact ne_of_lt hrest
        rw [hne]
      · -- the head already attains the maximum
        push_neg at hrest
        rw [if_neg (not_lt.mpr hrest)]
        have hmx : maxIntentScore qws nq (x :: rest) = intentScore qws nq ps 0 := by
          rw [hmax_cons, hsx, max_eq_left hrest]
        rw [if_pos (by rw [hmx]; exact hgt)]
        rw [List.find?_cons, hmx]
        have hyes : decide (scoreOf qws nq x = intentScore qws nq ps 0) = true := by
          rw [decide_eq_true_iff]
          exact hsx
        rw [hyes]
    · rw [if_neg hgt]
      push_neg at hgt
      rw [ih best hb hokr]
      by_cases hrest : maxIntentScore qws nq rest > best.2
      · rw [if_pos hrest]
        have hmx : maxIntentScore qws nq (x :: rest) = maxIntentScore qws nq rest := by
          rw [hmax_cons, hsx, max_eq_right]
          exact le_trans hgt (le_of_lt hrest)
        rw [if_pos (by rw [hmx]; exact hrest)]
        rw [List.find?_cons, hmx]
        have hne : decide (scoreOf qws nq x = maxIntentScore qws nq rest) = false := by
          rw [decide_eq_false_iff_not]
          rw [hsx]
          exact ne_of_lt (lt_of_le_of_lt hgt hrest)
        rw [hne]
      · rw [if_neg hrest]
        push_neg at hrest
        rw [if_neg]
        rw [hmax_cons, hsx]
        rw [not_lt]
        exact max_le hgt hrest

/-- On the main path (truthy string query, non-empty array catalog,
non-empty normalized query) `findMatchingIntent` is the resolver loop
followed by the `0.25` threshold test. -/
theorem findMatchingIntent_str_arr (q : String) (l : List JSVal) (hq : q ≠ "")
    (hl : l ≠ []) (hnq : (jsTrim (lowerList q.data)).length ≠ 0) :
    findMatchingIntent (JSVal.str q) (JSVal.arr l) =
      match resolverLoop (wordsOf (jsTrim (lowerList q.data)))
          (jsTrim (lowerList q.data)) l (none, 0) with
      | .error e => .error e
      | .ok best => .ok (if best.2 ≥ 0.25 then best.1 else none) := by
  rw [findMatchingIntent]
  rw [if_neg (by simp [JSVal.truthy, hq])]
  simp only []
  rw [if_neg (by simpa using hl)]
  rw [if_neg hnq]

/-- C1: for a successfully loaded catalog (non-empty, all entries
non-nullish with array `patterns`) and a non-empty string query whose
trimmed lower-cased form is non-empty, `findMatchingIntent` returns the
first intent in catalog order whose score equals the maximum intent score
whenever that maximum is at least `0.25` (so a score of exactly `0.25` is
accepted), and `null` when the maximum is below `0.25`.  The first two
conjuncts certify that `maxIntentScore` really is the maximum of the
per-intent scores. -/
theorem findMatchingIntent_first_max_threshold
    (q : String) (l : List JSVal) (hq : q ≠ "") (hl : l ≠ [])
    (hnq : (jsTrim (lowerList q.data)).length ≠ 0)
    (hok : ∀ e ∈ l, e.isNullish = false ∧
      ∃ ps, e.getF "patterns" = JSVal.arr ps) :
    let nq := jsTrim (lowerList q.data)
    let qws := wordsOf nq
    (∀ e ∈ l, scoreOf qws nq e ≤ maxIntentScore qws nq l) ∧
    (∃ e ∈ l, scoreOf qws nq e = maxIntentScore qws nq l) ∧
    (maxIntentScore qws nq l ≥ 0.25 →
      findMatchingIntent (JSVal.str q) (JSVal.arr l) =
        .ok (l.find? (fun e => decide (scoreOf qws nq e = maxIntentScore qws nq l)))) ∧
    (maxIntentScore qws nq l < 0.25 →
      findMatchingIntent (JSVal.str q) (JSVal.arr l) = .ok none) := by
  intro nq qws
  have hloop := resolverLoop_spec qws nq l (none, 0) le_rfl hok
  refine ⟨fun e he => le_maxIntentScore qws nq l e he,
    maxIntentScore_mem qws nq l hl, ?_, ?_⟩
  · intro hge
    have hpos : maxIntentScore qws nq l > (0:ℚ) := by
      have : (0:ℚ) < 0.25 := by norm_num
      calc (0:ℚ) < 0.25 := this
        _ ≤ maxIntentScore qws nq l := hge
    have hloop' : resolverLoop qws nq l (none, 0) =
        .ok (l.find? (fun e => decide (scoreOf qws nq e = maxIntentScore qws nq l)),
          maxIntentScore qws nq l) := by
      rw [hloop, if_pos hpos]
    rw [findMatchingIntent_str_arr q l hq hl hnq, hloop']
    simp only []
    rw [if_pos hge]
  · intro hlt
    rw [findMatchingIntent_str_arr q l hq hl hnq, hloop]
    by_cases hpos : maxIntentScore qws nq l > (0:ℚ)
    · rw [if_pos hpos]
      simp only []
      rw [if_neg (not_le.mpr hlt)]
    · rw [if_neg hpos]
      simp only []
      rw [if_neg (by norm_num)]

/-- C7: for every query whose normalized form is non-empty and every
catalog list on which the resolver loop completes without throwing, the
best-match score it computes lies in the closed interval `[0, 1]`. -/
theorem resolver_best_score_in_unit_interval
    (q : String) (l : List JSVal) (best : Option JSVal × ℚ)
    (hnq : (jsTrim (lowerList q.data)).length ≠ 0)
    (h : resolverLoop (wordsOf (jsTrim (lowerList q.data)))
      (jsTrim (lowerList q.data)) l (none, 0) = .ok best) :
    0 ≤ best.2 ∧ best.2 ≤ 1 :=
  resolverLoop_score_bounds _ _ l (none, 0) best le_rfl (by norm_num) h

/-- Witness for C7 at a concrete query and catalog. -/
theorem resolver_best_score_in_unit_interval_witness :
    (jsTrim (lowerList "hi".data)).length ≠ 0 ∧
      (0 ≤ ((none : Option JSVal), (0 : ℚ)).2 ∧
        ((none : Option JSVal), (0 : ℚ)).2 ≤ 1) :=
  ⟨by decide, resolver_best_score_in_unit_interval "hi" [] (none, 0)
    (by decide) rfl⟩

/-- C9: `_calculateLevenshteinDistance` computes exactly the classic
Levenshtein distance: its value is the least `n` such that the first
string can be transformed into the second by `n` single-character
insertions, deletions and substitutions (and, being a `ℕ`, it is a
non-negative integer). -/
theorem calculateLevenshteinDistance_is_least_edit_cost (s1 s2 : String) :
    IsLeast {n : ℕ | EditSeq s1.data s2.data n}
      (calculateLevenshteinDistance s1 s2) :=
  ⟨editSeq_levList s1.data s2.data, fun _ hn => levList_le_of_editSeq hn⟩

/-- C3 counterexample: on two empty strings the source's similarity is
`0`, not `1.0` as claimed — the JS guard `if (!str1 || !str2) return 0`
fires because the empty string is falsy, so the `maxLength === 0` branch
that would return `1` is unreachable. -/
theorem calculateStringSimilarity_empty_empty_ne_one :
    calculateStringSimilarity [] [] ≠ 1 := by
  rw [calculateStringSimilarity_empty_left]
  norm_num

/-- C3 as amended: the similarity is `1 - editDistance/max(len)` whenever
the two strings are not both empty, it is `0` (not `1`) when both are
empty, it is `0` against an empty string, it is symmetric, and it is `1`
on every non-empty string compared with itself. -/
theorem calculateStringSimilarity_spec :
    (∀ a b : List Char, a ≠ [] ∨ b ≠ [] →
      calculateStringSimilarity a b =
        1 - (levList a b : ℚ) / ((max a.length b.length : ℕ) : ℚ)) ∧
    calculateStringSimilarity [] [] = 0 ∧
    (∀ a : List Char, calculateStringSimilarity a [] = 0) ∧
    (∀ a b : List Char,
      calculateStringSimilarity a b = calculateStringSimilarity b a) ∧
    (∀ a : List Char, a ≠ [] → calculateStringSimilarity a a = 1) := by
  refine ⟨?_, calculateStringSimilarity_empty_left [],
    calculateStringSimilarity_empty_right, calculateStringSimilarity_comm,
    fun a ha => calculateStringSimilarity_self ha⟩
  intro a b hab
  by_cases ha : a = []
  · subst ha
    have hb : b ≠ [] := by
      rcases hab with h | h
      · exact absurd rfl h
      · exact h
    have hlen : b.length ≠ 0 := by simpa using hb
    rw [calculateStringSimilarity_empty_left, levList_nil_left]
    rw [eq_comm, sub_eq_zero]
    simp only [List.length_nil]
    rw [Nat.max_comm, Nat.max_eq_left (Nat.zero_le _)]
    rw [div_self]
    exact_mod_cast hlen
  · by_cases hb : b = []
    · subst hb
      have hlen : a.length ≠ 0 := by simpa using ha
      rw [calculateStringSimilarity_empty_right, levList_nil_right]
      rw [eq_comm, sub_eq_zero]
      simp only [List.length_nil]
      rw [Nat.max_eq_left (Nat.zero_le _)]
      rw [div_self]
      exact_mod_cast hlen
    · have hlena : a.length ≠ 0 := by simpa using ha
      have hlenb : b.length ≠ 0 := by simpa using hb
      rw [calculateStringSimilarity, if_neg (by simp [hlena, hlenb]),
        if_neg (by
          have : 0 < max a.length b.length := by
            have := Nat.pos_of_ne_zero hlena
            omega
          positivity)]

/-- Witness for the amended C3 at concrete strings. -/
theorem calculateStringSimilarity_spec_witness :
    (['a', 'b'] ≠ ([] : List Char) ∨ ['b'] ≠ ([] : List Char)) ∧
      calculateStringSimilarity ['a', 'b'] ['b'] =
        1 - (levList ['a', 'b'] ['b'] : ℚ) /
          ((max (['a', 'b'] : List Char).length (['b'] : List Char).length : ℕ) : ℚ) ∧
      (['a'] : List Char) ≠ [] ∧ calculateStringSimilarity ['a'] ['a'] = 1 :=
  ⟨by decide, calculateStringSimilarity_spec.1 ['a', 'b'] ['b'] (by decide),
    by decide, calculateStringSimilarity_spec.2.2.2.2 ['a'] (by decide)⟩

/-- C5 counterexample: `0` is a non-string query, yet `findMatchingIntent`
returns `null` (no match) instead of failing with
`IntentMatchError("Query must be a string")` — the falsiness guard
`if (!query) return null` runs before the `typeof` check. -/
theorem findMatchingIntent_falsy_nonstring_cex :
    findMatchingIntent (JSVal.num 0)
        (JSVal.arr [JSVal.obj [("tag", JSVal.str "greet")]]) = .ok none ∧
      findMatchingIntent (JSVal.num 0)
        (JSVal.arr [JSVal.obj [("tag", JSVal.str "greet")]]) ≠
          .error "Query must be a string" := by
  have h1 : findMatchingIntent (JSVal.num 0)
      (JSVal.arr [JSVal.obj [("tag", JSVal.str "greet")]]) = .ok none := rfl
  exact ⟨h1, by rw [h1]; exact fun h => Except.noConfusion h⟩

/-- C5 as amended: a falsy query (including the non-string values `0`,
`false`, `null`, `undefined` and the empty string) returns `null` without
failing, regardless of the catalog; a truthy non-string query fails with
`IntentMatchError("Query must be a string")`; a truthy string query
against a missing/non-array or empty catalog fails with
`IntentMatchError("No intents available for matching")`; and a truthy
string query that is empty after trimming, against a non-empty catalog,
returns `null`. -/
theorem findMatchingIntent_preconditions :
    (∀ (q intents : JSVal), q.truthy = false →
      findMatchingIntent q intents = .ok none) ∧
    (∀ (q intents : JSVal), q.truthy = true → (∀ s, q ≠ JSVal.str s) →
      findMatchingIntent q intents = .error "Query must be a string") ∧
    (∀ (s : String) (intents : JSVal), s ≠ "" →
      (intents.isArr = false ∨ intents = JSVal.arr []) →
      findMatchingIntent (JSVal.str s) intents =
        .error "No intents available for matching") ∧
    (∀ (s : String) (l : List JSVal), s ≠ "" → l ≠ [] →
      (jsTrim (lowerList s.data)).length = 0 →
      findMatchingIntent (JSVal.str s) (JSVal.arr l) = .ok none) := by
  refine ⟨?_, ?_, ?_, ?_⟩
  · intro q intents hq
    rw [findMatchingIntent.eq_def, if_pos (by simp [hq])]
  · intro q intents hq hns
    rw [findMatchingIntent.eq_def, if_neg (by simp [hq])]
    cases q with
    | str s => exact absurd rfl (hns s)
    | null => rfl
    | undefined => rfl
    | bool b => rfl
    | num n => rfl
    | arr l => rfl
    | obj f => rfl
  · intro s intents hs hcat
    rw [findMatchingIntent.eq_def, if_neg (by simp [JSVal.truthy, hs])]
    cases intents with
    | arr l =>
      rcases hcat with hcat | hcat
      · simp [JSVal.isArr] at hcat
      · cases hcat
        rfl
    | null => rfl
    | undefined => rfl
    | bool b => rfl
    | num n => rfl
    | str t => rfl
    | obj f => rfl
  · intro s l hs hl hnq
    rw [findMatchingIntent, if_neg (by simp [JSVal.truthy, hs])]
    simp only []
    rw [if_neg (by simpa using hl), if_pos hnq]

/-- Witness for the amended C5 on concrete inputs, one per clause. -/
theorem findMatchingIntent_preconditions_witness :
    ((JSVal.bool false).truthy = false ∧
      findMatchingIntent (JSVal.bool false) (JSVal.arr [JSVal.obj []]) = .ok none) ∧
    ((JSVal.num 2).truthy = true ∧
      findMatchingIntent (JSVal.num 2) (JSVal.arr [JSVal.obj []]) =
        .error "Query must be a string") ∧
    ("hey" ≠ "" ∧
      findMatchingIntent (JSVal.str "hey") (JSVal.arr []) =
        .error "No intents available for matching") ∧
    ("  " ≠ "" ∧ (jsTrim (lowerList "  ".data)).length = 0 ∧
      findMatchingIntent (JSVal.str "  ") (JSVal.arr [JSVal.obj []]) = .ok none) :=
  ⟨⟨by decide, findMatchingIntent_preconditions.1 (JSVal.bool false)
      (JSVal.arr [JSVal.obj []]) (by decide)⟩,
   ⟨by decide, findMatchingIntent_preconditions.2.1 (JSVal.num 2)
      (JSVal.arr [JSVal.obj []]) (by decide) (fun s h => JSVal.noConfusion h)⟩,
   ⟨by decide, findMatchingIntent_preconditions.2.2.1 "hey" (JSVal.arr [])
      (by decide) (Or.inr rfl)⟩,
   ⟨by decide, by decide, findMatchingIntent_preconditions.2.2.2 "  "
      [JSVal.obj []] (by decide) (by simp) (by decide)⟩⟩

/-- C10: a failed `loadIntents` call leaves the installed catalog exactly
as it was — `this.intents` is assigned only after every validation check
has passed, so every error path returns the prior state unchanged. -/
theorem loadIntents_preserves_state_on_failure (st : ServiceState) (d : JSVal) :
    ∀ e : String, (loadIntents st d).2 = some e → (loadIntents st d).1 = st := by
  unfold loadIntents
  split
  · intro e h; rfl
  · split
    · intro e h; rfl
    · split
      · split
        · intro e h; rfl
        · split
          · intro e h; rfl
          · intro e h; simp at h
      · intro e h; rfl

/-- Witness for C10: loading `null` data fails and preserves the state. -/
theorem loadIntents_preserves_state_on_failure_witness :
    (loadIntents ⟨JSVal.arr [JSVal.str "old"]⟩ JSVal.null).2 =
        some "Intent data is missing" ∧
      (loadIntents ⟨JSVal.arr [JSVal.str "old"]⟩ JSVal.null).1 =
        ⟨JSVal.arr [JSVal.str "old"]⟩ :=
  ⟨rfl, loadIntents_preserves_state_on_failure ⟨JSVal.arr [JSVal.str "old"]⟩
    JSVal.null "Intent data is missing" rfl⟩

/-- C6 counterexample: an intent entry with zero patterns and zero
responses (empty arrays) passes `loadIntents` — empty arrays are truthy
in JS and `Array.isArray` holds, so no check rejects them and the catalog
is installed.  The claim that such a catalog "fails load" is false. -/
theorem loadIntents_accepts_empty_arrays_cex :
    (loadIntents ⟨JSVal.arr []⟩ (JSVal.obj [("intents", JSVal.arr
        [JSVal.obj [("tag", JSVal.str "a"), ("patterns", JSVal.arr []),
          ("responses", JSVal.arr [])]])])).2 = none ∧
      (loadIntents ⟨JSVal.arr []⟩ (JSVal.obj [("intents", JSVal.arr
        [JSVal.obj [("tag", JSVal.str "a"), ("patterns", JSVal.arr []),
          ("responses", JSVal.arr [])]])])).1.intents =
        JSVal.arr [JSVal.obj [("tag", JSVal.str "a"),
          ("patterns", JSVal.arr []), ("responses", JSVal.arr [])]] :=
  ⟨rfl, rfl⟩

/-- Auxiliary for C6: the validation loop reports some error whenever some
entry is nullish or has a falsy `tag`, `patterns` or `responses`. -/
theorem validateEntries_isSome_of_bad :
    ∀ (l : List JSVal) (e : JSVal), e ∈ l →
      (e.isNullish = true ∨ (e.getF "tag").truthy = false ∨
        (e.getF "patterns").truthy = false ∨
        (e.getF "responses").truthy = false) →
      (validateEntries l).isSome = true := by
  intro l
  induction l with
  | nil => intro e he _; cases he
  | cons x rest ih =>
    intro e he hbad
    rw [validateEntries]
    by_cases hn : x.isNullish
    · rw [if_pos hn]; rfl
    · rw [if_neg hn]
      by_cases hm : ¬ (x.getF "tag").truthy ∨ ¬ (x.getF "patterns").truthy ∨
          ¬ (x.getF "responses").truthy
      · rw [if_pos hm]; rfl
      · rw [if_neg hm]
        by_cases ha : ¬ (x.getF "patterns").isArr ∨ ¬ (x.getF "responses").isArr
        · rw [if_pos ha]; rfl
        · rw [if_neg ha]
          rcases List.mem_cons.mp he with rfl | hmem
          · push_neg at hm
            rcases hbad with h | h | h | h
            · exact absurd h (by simpa using hn)
            · exact absurd h (by simpa using hm.1)
            · exact absurd h (by simpa using hm.2.1)
            · exact absurd h (by simpa using hm.2.2)
          · exact ih e hmem hbad

/-- C6 as amended: the loader rejects (fails with some `IntentLoadError`)
every catalog containing an entry that is nullish or whose `tag`,
`patterns` or `responses` property is missing or otherwise falsy, and the
failing check for a non-nullish entry with a falsy required property
reports `"Invalid intent structure: missing required properties"`; but an
entry whose `patterns` or `responses` is an *empty array* is accepted, so
zero-pattern/zero-response intents do not fail the load (see the
counterexample). -/
theorem loadIntents_rejects_missing_required_properties :
    (∀ (st : ServiceState) (d : JSVal) (l : List JSVal),
      d.truthy = true → d.getF "intents" = JSVal.arr l →
      (∃ e ∈ l, e.isNullish = true ∨ (e.getF "tag").truthy = false ∨
        (e.getF "patterns").truthy = false ∨
        (e.getF "responses").truthy = false) →
      ∃ msg, (loadIntents st d).2 = some msg) ∧
    (∀ (rest : List JSVal) (e : JSVal), e.isNullish = false →
      ((e.getF "tag").truthy = false ∨ (e.getF "patterns").truthy = false ∨
        (e.getF "responses").truthy = false) →
      validateEntries (e :: rest) =
        some "Invalid intent structure: missing required properties") := by
  constructor
  · intro st d l hd hi hbad
    obtain ⟨e, he, hbad⟩ := hbad
    have hlne : l ≠ [] := by
      intro h; subst h; cases he
    rw [loadIntents, if_neg (by simp [hd]),
      if_neg (by rw [hi]; simp [JSVal.truthy]), hi]
    simp only []
    rw [if_neg (by simpa using hlne)]
    have hsome := validateEntries_isSome_of_bad l e he hbad
    obtain ⟨msg, hmsg⟩ := Option.isSome_iff_exists.mp hsome
    rw [hmsg]
    exact ⟨msg, rfl⟩
  · intro rest e hn hbad
    rw [validateEntries, if_neg (by simp [hn]), if_pos]
    rcases hbad with h | h | h
    · exact Or.inl (by simp [h])
    · exact Or.inr (Or.inl (by simp [h]))
    · exact Or.inr (Or.inr (by simp [h]))

/-- Witness for the amended C6: a catalog whose single entry has an empty
(falsy) `tag` string is rejected, and the validation loop reports the
missing-properties message on it. -/
theorem loadIntents_rejects_missing_required_properties_witness :
    ((JSVal.obj [("intents", JSVal.arr [JSVal.obj [("tag", JSVal.str "")]])]).truthy
        = true ∧
      (JSVal.obj [("intents", JSVal.arr [JSVal.obj [("tag", JSVal.str "")]])]).getF
          "intents" = JSVal.arr [JSVal.obj [("tag", JSVal.str "")]] ∧
      (∃ msg, (loadIntents ⟨JSVal.arr []⟩
        (JSVal.obj [("intents",
          JSVal.arr [JSVal.obj [("tag", JSVal.str "")]])])).2 = some msg)) ∧
    validateEntries [JSVal.obj [("tag", JSVal.str "")]] =
      some "Invalid intent structure: missing required properties" :=
  ⟨⟨rfl, rfl,
    loadIntents_rejects_missing_required_properties.1 ⟨JSVal.arr []⟩
      (JSVal.obj [("intents", JSVal.arr [JSVal.obj [("tag", JSVal.str "")]])])
      [JSVal.obj [("tag", JSVal.str "")]] rfl rfl
      ⟨JSVal.obj [("tag", JSVal.str "")], List.mem_cons_self _ _,
        Or.inr (Or.inl (by decide))⟩⟩,
    loadIntents_rejects_missing_required_properties.2 []
      (JSVal.obj [("tag", JSVal.str "")]) rfl (Or.inl (by decide))⟩

/-- The intent tracked by the resolver loop is either the seeded one or a
member of the scanned list. -/
theorem resolverLoop_mem (qws : List (List Char)) (nq : List Char) :
    ∀ (l : List JSVal) (best : Option JSVal × ℚ) (r : Option JSVal × ℚ),
      resolverLoop qws nq l best = .ok r →
      r.1 = best.1 ∨ ∃ x ∈ l, r.1 = some x := by
  intro l
  induction l with
  | nil =>
    intro best r hr
    rw [resolverLoop] at hr
    cases hr
    exact Or.inl rfl
  | cons intent rest ih =>
    intro best r hr
    rw [resolverLoop] at hr
    by_cases hn : intent.isNullish
    · rw [if_pos hn] at hr; cases hr
    · rw [if_neg hn] at hr
      cases hpat : intent.getF "patterns" with
      | arr pats =>
        rw [hpat] at hr
        simp only [] at hr
        by_cases hgt : intentScore qws nq pats 0 > best.2
        · rw [if_pos hgt] at hr
          rcases ih _ r hr with h | ⟨x, hx, hrx⟩
          · exact Or.inr ⟨intent, List.mem_cons_self _ _, h⟩
          · exact Or.inr ⟨x, List.mem_cons_of_mem _ hx, hrx⟩
        · rw [if_neg hgt] at hr
          rcases ih _ r hr with h | ⟨x, hx, hrx⟩
          · exact Or.inl h
          · exact Or.inr ⟨x, List.mem_cons_of_mem _ hx, hrx⟩
      | null =>
        rw [hpat] at hr
        rcases ih _ r hr with h | ⟨x, hx, hrx⟩
        · exact Or.inl h
        · exact Or.inr ⟨x, List.mem_cons_of_mem _ hx, hrx⟩
      | undefined =>
        rw [hpat] at hr
        rcases ih _ r hr with h | ⟨x, hx, hrx⟩
        · exact Or.inl h
        · exact Or.inr ⟨x, List.mem_cons_of_mem _ hx, hrx⟩
      | bool b =>
        rw [hpat] at hr
        rcases ih _ r hr with h | ⟨x, hx, hrx⟩
        · exact Or.inl h
        · exact Or.inr ⟨x, List.mem_cons_of_mem _ hx, hrx⟩
      | num n =>
        rw [hpat] at hr
        rcases ih _ r hr with h | ⟨x, hx, hrx⟩
        · exact Or.inl h
        · exact Or.inr ⟨x, List.mem_cons_of_mem _ hx, hrx⟩
      | str t =>
        rw [hpat] at hr
        rcases ih _ r hr with h | ⟨x, hx, hrx⟩
        · exact Or.inl h
        · exact Or.inr ⟨x, List.mem_cons_of_mem _ hx, hrx⟩
      | obj f =>
        rw [hpat] at hr
        rcases ih _ r hr with h | ⟨x, hx, hrx⟩
        · exact Or.inl h
        · exact Or.inr ⟨x, List.mem_cons_of_mem _ hx, hrx⟩

/-- A matched intent always comes from the catalog list. -/
theorem findMatchingIntent_mem (q : String) (l : List JSVal) (m : JSVal)
    (h : findMatchingIntent (JSVal.str q) (JSVal.arr l) = .ok (some m)) :
    m ∈ l := by
  rw [findMatchingIntent.eq_def] at h
  by_cases hq : (JSVal.str q).truthy
  · rw [if_neg (by simp [hq])] at h
    simp only [] at h
    by_cases hl0 : l.length = 0
    · rw [if_pos hl0] at h
      cases h
    · rw [if_neg hl0] at h
      by_cases hnq : (jsTrim (lowerList q.data)).length = 0
      · rw [if_pos hnq] at h
        simp at h
      · rw [if_neg hnq] at h
        cases hr : resolverLoop (wordsOf (jsTrim (lowerList q.data)))
            (jsTrim (lowerList q.data)) l (none, 0) with
        | error e => rw [hr] at h; cases h
        | ok best =>
          rw [hr] at h
          simp only [Except.ok.injEq] at h
          by_cases hth : best.2 ≥ 0.25
          · rw [if_pos hth] at h
            rcases resolverLoop_mem _ _ l (none, 0) best hr with h0 | ⟨x, hx, hrx⟩
            · rw [h] at h0; cases h0
            · rw [h] at hrx
              cases hrx
              exact hx
          · rw [if_neg hth] at h
            cases h
  · rw [if_pos hq] at h
    cases h

/-- C4: `generateResponse` never throws — in the embedding it is a total
function into the three-field record `{ answer : String, intent, error }`
— and, provided every catalog entry's `tag` is a string (the catalog
format of the spec), the returned `intent` is a string or `null` and the
returned `error` is `null` or one of the four documented error tags; every
internal failure is mapped into the `error` field. -/
theorem generateResponse_result_shape (intents : JSVal) (rand : ℚ) (query : JSVal)
    (htags : ∀ l, intents = JSVal.arr l → ∀ e ∈ l,
      ∃ s, e.getF "tag" = JSVal.str s) :
    ((generateResponse intents rand query).intent = JSVal.null ∨
      ∃ s, (generateResponse intents rand query).intent = JSVal.str s) ∧
    ((generateResponse intents rand query).error = none ∨
      (generateResponse intents rand query).error = some "EMPTY_QUERY" ∨
      (generateResponse intents rand query).error = some "NO_MATCH" ∨
      (generateResponse intents rand query).error = some "INTENT_MATCH_ERROR" ∨
      (generateResponse intents rand query).error = some "INTERNAL_ERROR") := by
  rw [generateResponse.eq_def]
  by_cases htq : query.truthy
  · rw [if_neg (by simp [htq])]
    cases query with
    | str s =>
      cases intents with
      | arr l =>
        cases hfind : findMatchingIntent (JSVal.str s) (JSVal.arr l) with
        | error e =>
          exact ⟨Or.inl rfl, by simp⟩
        | ok om =>
          cases om with
          | none =>
            exact ⟨Or.inl rfl, by simp⟩
          | some m =>
            try simp only []
            have hmem : m ∈ l := findMatchingIntent_mem s l m hfind
            obtain ⟨t, ht⟩ := htags l rfl m hmem
            cases hresp : m.getF "responses" with
            | arr rs =>
              try simp only []
              by_cases hlen : rs.length = 0
              · rw [if_pos hlen]
                exact ⟨Or.inl rfl, by simp⟩
              · rw [if_neg hlen]
                try simp only []
                cases hsel : rs.getD (Int.floor (rand * (rs.length : ℚ))).toNat
                    JSVal.undefined with
                | str resp =>
                  try simp only []
                  by_cases htrim : (jsTrim resp.data).length = 0
                  · rw [if_pos htrim]
                    exact ⟨Or.inl rfl, by simp⟩
                  · rw [if_neg htrim]
                    exact ⟨Or.inr ⟨t, ht⟩, Or.inl rfl⟩
                | null => exact ⟨Or.inl rfl, by simp⟩
                | undefined => exact ⟨Or.inl rfl, by simp⟩
                | bool b => exact ⟨Or.inl rfl, by simp⟩
                | num n => exact ⟨Or.inl rfl, by simp⟩
                | arr a => exact ⟨Or.inl rfl, by simp⟩
                | obj f => exact ⟨Or.inl rfl, by simp⟩
            | null => exact ⟨Or.inl rfl, by simp⟩
            | undefined => exact ⟨Or.inl rfl, by simp⟩
            | bool b => exact ⟨Or.inl rfl, by simp⟩
            | num n => exact ⟨Or.inl rfl, by simp⟩
            | str u => exact ⟨Or.inl rfl, by simp⟩
            | obj f => exact ⟨Or.inl rfl, by simp⟩
      | null =>
        rw [show findMatchingIntent (JSVal.str s) JSVal.null =
          .error "No intents available for matching" from by
            rw [findMatchingIntent.eq_def, if_neg (by simp [htq])]]
        exact ⟨Or.inl rfl, by simp⟩
      | undefined =>
        rw [show findMatchingIntent (JSVal.str s) JSVal.undefined =
          .error "No intents available for matching" from by
            rw [findMatchingIntent.eq_def, if_neg (by simp [htq])]]
        exact ⟨Or.inl rfl, by simp⟩
      | bool b =>
        rw [show findMatchingIntent (JSVal.str s) (JSVal.bool b) =
          .error "No intents available for matching" from by
            rw [findMatchingIntent.eq_def, if_neg (by simp [htq])]]
        exact ⟨Or.inl rfl, by simp⟩
      | num n =>
        rw [show findMatchingIntent (JSVal.str s) (JSVal.num n) =
          .error "No intents available for matching" from by
            rw [findMatchingIntent.eq_def, if_neg (by simp [htq])]]
        exact ⟨Or.inl rfl, by simp⟩
      | str t =>
        rw [show findMatchingIntent (JSVal.str s) (JSVal.str t) =
          .error "No intents available for matching" from by
            rw [findMatchingIntent.eq_def, if_neg (by simp [htq])]]
        exact ⟨Or.inl rfl, by simp⟩
      | obj f =>
        rw [show findMatchingIntent (JSVal.str s) (JSVal.obj f) =
          .error "No intents available for matching" from by
            rw [findMatchingIntent.eq_def, if_neg (by simp [htq])]]
        exact ⟨Or.inl rfl, by simp⟩
    | null => exact ⟨Or.inl rfl, by simp⟩
    | undefined => exact ⟨Or.inl rfl, by simp⟩
    | bool b => exact ⟨Or.inl rfl, by simp⟩
    | num n => exact ⟨Or.inl rfl, by simp⟩
    | arr a => exact ⟨Or.inl rfl, by simp⟩
    | obj f => exact ⟨Or.inl rfl, by simp⟩
  · rw [if_pos (by simp [htq])]
    exact ⟨Or.inl rfl, by simp⟩

/-- Witness for C4 at a concrete non-string query and catalog. -/
theorem generateResponse_result_shape_witness :
    ((generateResponse (JSVal.num 1) 0 (JSVal.num 2)).intent = JSVal.null ∨
      ∃ s, (generateResponse (JSVal.num 1) 0 (JSVal.num 2)).intent =
        JSVal.str s) ∧
    ((generateResponse (JSVal.num 1) 0 (JSVal.num 2)).error = none ∨
      (generateResponse (JSVal.num 1) 0 (JSVal.num 2)).error = some "EMPTY_QUERY" ∨
      (generateResponse (JSVal.num 1) 0 (JSVal.num 2)).error = some "NO_MATCH" ∨
      (generateResponse (JSVal.num 1) 0 (JSVal.num 2)).error =
        some "INTENT_MATCH_ERROR" ∨
      (generateResponse (JSVal.num 1) 0 (JSVal.num 2)).error =
        some "INTERNAL_ERROR") :=
  generateResponse_result_shape (JSVal.num 1) 0 (JSVal.num 2)
    (fun l h => JSVal.noConfusion h)

/-- The per-intent pattern loop computes the fold of the per-pattern score
over exactly the string-typed patterns, skipped elements contributing
nothing. -/
theorem intentScore_eq_foldl (qws : List (List Char)) (nq : List Char) :
    ∀ (ps : List JSVal) (sc : ℚ),
      intentScore qws nq ps sc =
        (ps.filterMap (fun p => match p with
          | JSVal.str s => some s
          | _ => none)).foldl
          (fun sc s => max sc (patternScore qws nq s.data)) sc := by
  intro ps
  induction ps with
  | nil => intro sc; simp [intentScore]
  | cons p rest ih =>
    intro sc
    cases p <;> simp only [intentScore, List.filterMap_cons] <;>
      first
        | exact ih sc
        | exact ih _

/-- C2: the per-pattern score is exactly
`(exactMatch·1.0 + wordSimilarity·0.7 + wordOrder·0.6 + coverage·0.9) / 3.2`
with `coverage = matchedWords / max(queryWordCount, patternWordCount)`, and
an intent's score is the maximum of this quantity over its string-typed
patterns (folded from `0`), with non-string patterns skipped without
failing the call. -/
theorem patternScore_formula_and_intent_max :
    (∀ (qws : List (List Char)) (nq pat : List Char),
      patternScore qws nq pat =
        ((if nq = lowerList pat then (1:ℚ) else 0) * 1.0 +
          (wordSimAndMatched qws (wordsOf (lowerList pat))).1 /
            (qws.length : ℚ) * 0.7 +
          calculateWordOrderSimilarity qws (wordsOf (lowerList pat)) * 0.6 +
          ((wordSimAndMatched qws (wordsOf (lowerList pat))).2 : ℚ) /
            ((max qws.length (wordsOf (lowerList pat)).length : ℕ) : ℚ) * 0.9)
          / 3.2) ∧
    (∀ (qws : List (List Char)) (nq : List Char) (ps : List JSVal),
      intentScore qws nq ps 0 =
        (ps.filterMap (fun p => match p with
          | JSVal.str s => some s
          | _ => none)).foldl
          (fun sc s => max sc (patternScore qws nq s.data)) 0) :=
  ⟨fun _ _ _ => rfl, fun qws nq ps => intentScore_eq_foldl qws nq ps 0⟩

/-! ### Concrete evaluation of the scoring pipeline on the query `"hi"`
against a single-pattern catalog, used by the witnesses. -/

theorem simHi : calculateStringSimilarity ['h', 'i'] ['h', 'i'] = 1 :=
  calculateStringSimilarity_self (by decide)

theorem bestMatchInHi : bestMatchIn ['h', 'i'] [['h', 'i']] 0 (0, -1) = (1, 0) := by
  rw [bestMatchIn, bestMatchIn, simHi]
  norm_num

theorem orderAccumHi :
    orderAccum [['h', 'i']] 1 1 [['h', 'i']] 0 (0, 0, 0) = (1, 1, 0) := by
  rw [orderAccum, bestMatchInHi]
  rw [if_pos (by norm_num)]
  simp only []
  rw [orderAccum]
  norm_num [Prod.ext_iff]
  all_goals decide

theorem wordOrderHi :
    calculateWordOrderSimilarity [['h', 'i']] [['h', 'i']] = 1 := by
  rw [calculateWordOrderSimilarity]
  rw [if_neg (by decide)]
  simp only [List.length_cons, List.length_nil]
  rw [orderAccumHi]
  norm_num

theorem bestWordScoreHi : bestWordScore ['h', 'i'] [['h', 'i']] = 1 := by
  rw [bestWordScore, List.foldl_cons, List.foldl_nil, simHi]
  norm_num

theorem wordSimAndMatchedHi :
    wordSimAndMatched [['h', 'i']] [['h', 'i']] = (1, 1) := by
  rw [wordSimAndMatched, List.foldl_cons, List.foldl_nil]
  simp only [bestWordScoreHi]
  norm_num

theorem patternScoreHi : patternScore [['h', 'i']] ['h', 'i'] ['h', 'i'] = 1 := by
  rw [patternScore]
  rw [show lowerList ['h', 'i'] = ['h', 'i'] from by decide]
  rw [show wordsOf ['h', 'i'] = [['h', 'i']] from by decide]
  rw [if_pos rfl, wordSimAndMatchedHi, wordOrderHi]
  norm_num

theorem intentScoreHi :
    intentScore [['h', 'i']] ['h', 'i'] [JSVal.str "hi"] 0 = 1 := by
  rw [intentScore, intentScore]
  rw [show ("hi" : String).data = ['h', 'i'] from rfl, patternScoreHi]
  norm_num

theorem resolverLoopHi (e : JSVal) (hnn : e.isNullish = false)
    (hp : e.getF "patterns" = JSVal.arr [JSVal.str "hi"]) :
    resolverLoop [['h', 'i']] ['h', 'i'] [e] (none, 0) = .ok (some e, 1) := by
  rw [resolverLoop, if_neg (by simp [hnn]), hp]
  simp only [intentScoreHi]
  rw [if_pos (by norm_num)]
  rw [resolverLoop]

theorem findHi (e : JSVal) (hnn : e.isNullish = false)
    (hp : e.getF "patterns" = JSVal.arr [JSVal.str "hi"]) :
    findMatchingIntent (JSVal.str "hi") (JSVal.arr [e]) = .ok (some e) := by
  rw [findMatchingIntent_str_arr "hi" [e] (by decide) (by simp) (by decide)]
  rw [show jsTrim (lowerList ("hi" : String).data) = ['h', 'i'] from by decide]
  rw [show wordsOf ['h', 'i'] = [['h', 'i']] from by decide]
  rw [resolverLoopHi e hnn hp]
  norm_num

/-- A one-intent catalog entry: tag `"greet"`, one pattern `"hi"`, one
response `"hello"`. -/
def hiIntent : JSVal :=
  JSVal.obj [("tag", JSVal.str "greet"),
    ("patterns", JSVal.arr [JSVal.str "hi"]),
    ("responses", JSVal.arr [JSVal.str "hello"])]

/-- Witness for C1: on the query `"hi"` against the one-intent catalog the
maximum intent score is `1 ≥ 0.25` and the resolver returns the first (and
only) maximal entry. -/
theorem findMatchingIntent_first_max_threshold_witness :
    maxIntentScore (wordsOf (jsTrim (lowerList ("hi" : String).data)))
        (jsTrim (lowerList ("hi" : String).data)) [hiIntent] ≥ 0.25 ∧
      findMatchingIntent (JSVal.str "hi") (JSVal.arr [hiIntent]) =
        .ok ([hiIntent].find? (fun e =>
          decide (scoreOf (wordsOf (jsTrim (lowerList ("hi" : String).data)))
              (jsTrim (lowerList ("hi" : String).data)) e =
            maxIntentScore (wordsOf (jsTrim (lowerList ("hi" : String).data)))
              (jsTrim (lowerList ("hi" : String).data)) [hiIntent]))) := by
  have e1 : jsTrim (lowerList ("hi" : String).data) = ['h', 'i'] := by decide
  have e2 : wordsOf (jsTrim (lowerList ("hi" : String).data)) = [['h', 'i']] := by
    rw [e1]
    decide
  have hok : ∀ e ∈ [hiIntent], e.isNullish = false ∧
      ∃ ps, e.getF "patterns" = JSVal.arr ps := by
    intro e he
    rcases List.mem_cons.mp he with rfl | hmem
    · exact ⟨rfl, [JSVal.str "hi"], rfl⟩
    · cases hmem
  have hscoreOf : scoreOf (wordsOf (jsTrim (lowerList ("hi" : String).data)))
      (jsTrim (lowerList ("hi" : String).data)) hiIntent = 1 := by
    rw [e2, e1, scoreOf]
    rw [show hiIntent.getF "patterns" = JSVal.arr [JSVal.str "hi"] from rfl]
    exact intentScoreHi
  have hmax : maxIntentScore (wordsOf (jsTrim (lowerList ("hi" : String).data)))
      (jsTrim (lowerList ("hi" : String).data)) [hiIntent] = 1 := by
    rw [maxIntentScore, List.map_cons, List.map_nil, List.foldr_cons,
      List.foldr_nil, hscoreOf]
    norm_num
  have hge : maxIntentScore (wordsOf (jsTrim (lowerList ("hi" : String).data)))
      (jsTrim (lowerList ("hi" : String).data)) [hiIntent] ≥ 0.25 := by
    rw [hmax]
    norm_num
  exact ⟨hge, (findMatchingIntent_first_max_threshold "hi" [hiIntent]
    (by decide) (by simp) (by decide) hok).2.2.1 hge⟩

/-- C8 counterexample: the intent below has the valid non-empty response
`"ok"` at index 1, yet with random draw `0` the source selects index 0,
finds the number `5` there, and returns `INTERNAL_ERROR` — so an Intent
with a valid response string can still yield `INTERNAL_ERROR`, and
selection is not over the valid responses only. -/
theorem generateResponse_internal_error_despite_valid_response_cex :
    generateResponse
        (JSVal.arr [JSVal.obj [("tag", JSVal.str "greet"),
          ("patterns", JSVal.arr [JSVal.str "hi"]),
          ("responses", JSVal.arr [JSVal.num 5, JSVal.str "ok"])]])
        0 (JSVal.str "hi") =
      ⟨internalErrorAnswer, JSVal.null, some "INTERNAL_ERROR"⟩ ∧
    JSVal.str "ok" ∈ [JSVal.num 5, JSVal.str "ok"] ∧
    (JSVal.obj [("tag", JSVal.str "greet"),
      ("patterns", JSVal.arr [JSVal.str "hi"]),
      ("responses", JSVal.arr [JSVal.num 5, JSVal.str "ok"])]).getF "responses" =
      JSVal.arr [JSVal.num 5, JSVal.str "ok"] ∧
    (jsTrim ("ok" : String).data).length ≠ 0 := by
  refine ⟨?_, List.mem_cons_of_mem _ (List.mem_cons_self _ _), rfl, by decide⟩
  rw [generateResponse.eq_def, if_neg (by decide)]
  try simp only []
  rw [findHi (JSVal.obj [("tag", JSVal.str "greet"),
    ("patterns", JSVal.arr [JSVal.str "hi"]),
    ("responses", JSVal.arr [JSVal.num 5, JSVal.str "ok"])]) rfl rfl]
  try simp only []
  rw [show (JSVal.obj [("tag", JSVal.str "greet"),
    ("patterns", JSVal.arr [JSVal.str "hi"]),
    ("responses", JSVal.arr [JSVal.num 5, JSVal.str "ok"])]).getF "responses" =
    JSVal.arr [JSVal.num 5, JSVal.str "ok"] from rfl]
  try simp only []
  rw [if_neg (by decide)]
  try simp only []
  rw [show ((Int.floor ((0:ℚ) *
      (([JSVal.num 5, JSVal.str "ok"] : List JSVal).length : ℚ))).toNat) = 0 by
    norm_num]
  rfl

/-- C8 as amended: on a successful match the source selects index
`⌊rand·len⌋` among *all* of the intent's responses; if the selected element
is a string that is non-empty after trimming it is returned with
`error = null` and `intent` set to the matched entry's `tag`, and
otherwise — even when another response is a valid string — the call yields
`INTERNAL_ERROR`. -/
theorem generateResponse_selection (intents : JSVal) (rand : ℚ) (s : String)
    (m : JSVal) (rs : List JSVal) (hs : s ≠ "")
    (hfind : findMatchingIntent (JSVal.str s) intents = .ok (some m))
    (hresp : m.getF "responses" = JSVal.arr rs)
    (hlen : rs.length ≠ 0) :
    (∀ resp : String,
      rs.getD (Int.floor (rand * (rs.length : ℚ))).toNat JSVal.undefined =
        JSVal.str resp →
      (jsTrim resp.data).length ≠ 0 →
      generateResponse intents rand (JSVal.str s) =
        ⟨resp, m.getF "tag", none⟩) ∧
    ((∀ resp : String,
        rs.getD (Int.floor (rand * (rs.length : ℚ))).toNat JSVal.undefined =
          JSVal.str resp →
        (jsTrim resp.data).length = 0) →
      generateResponse intents rand (JSVal.str s) =
        ⟨internalErrorAnswer, JSVal.null, some "INTERNAL_ERROR"⟩) := by
  have hunfold : generateResponse intents rand (JSVal.str s) =
      match rs.getD (Int.floor (rand * (rs.length : ℚ))).toNat JSVal.undefined with
      | JSVal.str resp =>
        if (jsTrim resp.data).length = 0 then
          ⟨internalErrorAnswer, JSVal.null, some "INTERNAL_ERROR"⟩
        else ⟨resp, m.getF "tag", none⟩
      | _ => ⟨internalErrorAnswer, JSVal.null, some "INTERNAL_ERROR"⟩ := by
    rw [generateResponse.eq_def, if_neg (by simp [JSVal.truthy, hs])]
    try simp only []
    rw [hfind]
    try simp only []
    rw [hresp]
    try simp only []
    rw [if_neg hlen]
  constructor
  · intro resp hsel htrim
    rw [hunfold, hsel]
    try simp only []
    rw [if_neg htrim]
  · intro hbad
    rw [hunfold]
    cases hsel : rs.getD (Int.floor (rand * (rs.length : ℚ))).toNat JSVal.undefined with
    | str resp =>
      try simp only []
      rw [if_pos (hbad resp hsel)]
    | null => rfl
    | undefined => rfl
    | bool b => rfl
    | num n => rfl
    | arr a => rfl
    | obj f => rfl

/-- Witness for the amended C8: the `"hello"` response of `hiIntent` is
selected at index `⌊0·1⌋ = 0` and returned with the matched tag and a
`null` error. -/
theorem generateResponse_selection_witness :
    ("hi" ≠ "" ∧
      findMatchingIntent (JSVal.str "hi") (JSVal.arr [hiIntent]) =
        .ok (some hiIntent) ∧
      hiIntent.getF "responses" = JSVal.arr [JSVal.str "hello"] ∧
      ([JSVal.str "hello"] : List JSVal).length ≠ 0 ∧
      ([JSVal.str "hello"] : List JSVal).getD
          (Int.floor ((0:ℚ) * (([JSVal.str "hello"] : List JSVal).length : ℚ))).toNat
          JSVal.undefined = JSVal.str "hello" ∧
      (jsTrim ("hello" : String).data).length ≠ 0) ∧
    generateResponse (JSVal.arr [hiIntent]) 0 (JSVal.str "hi") =
      ⟨"hello", hiIntent.getF "tag", none⟩ := by
  have hfind : findMatchingIntent (JSVal.str "hi") (JSVal.arr [hiIntent]) =
      .ok (some hiIntent) := findHi hiIntent rfl rfl
  have hsel : ([JSVal.str "hello"] : List JSVal).getD
      (Int.floor ((0:ℚ) * (([JSVal.str "hello"] : List JSVal).length : ℚ))).toNat
      JSVal.undefined = JSVal.str "hello" := by
    rw [show ((Int.floor ((0:ℚ) *
        (([JSVal.str "hello"] : List JSVal).length : ℚ))).toNat) = 0 by norm_num]
    rfl
  exact ⟨⟨by decide, hfind, rfl, by decide, hsel, by decide⟩,
    (generateResponse_selection (JSVal.arr [hiIntent]) 0 "hi" hiIntent
      [JSVal.str "hello"] (by decide) hfind rfl (by decide)).1 "hello" hsel
      (by decide)⟩

end ChatbotUI
